import Mathlib

/-!
Verification of the `mldata` dataset client (`src/mldata/dataset.py`).

The Python source is shallowly embedded below.  The remote transport
(`_get_json`, `_post_json`, ...) is an external collaborator: remote
responses are passed in as explicit parameters (a page-fetch function, a
record, an `Except` result), and the remote calls an operation issues are
recorded in explicit traces.  Machine-level concerns do not arise: all the
data involved are strings, lists and dictionaries.
-/

set_option maxRecDepth 8000

namespace Mldata

/-- An observable event of `Dataset.__iter__` (`dataset.py`, lines 125-154):
either a page fetch (`self._get_json(... extra_data={'page': page})`),
recording the page number and the returned page, or the yield of one raw
element summary. -/
inductive Ev (α : Type) where
  | fet : Nat → List α → Ev α
  | yld : α → Ev α
deriving DecidableEq, Repr

/-- The loop body of `Dataset.__iter__` (`dataset.py`, lines 139-154),
fuel-indexed.  State: `page` is the last page number fetched, `first` the
buffer being consumed, `second` the prefetched buffer, `req` the
`new_list_requested` flag, and `i` the value of `iteration` after the
`iteration += 1` at the top of the body.  Each body iteration:
if `iteration > len(first)//2` and no list was requested, fetch the next
page into `second`; if `iteration >= len(first)`, swap `first := second`,
reset `second`, `iteration`, and the flag; finally, if
`len(first) > iteration`, yield `first[iteration]`.  The loop stops when
`len(first) == 0`. -/
def iterStep [Inhabited α] (fetch : Nat → List α) :
    Nat → Nat → List α → List α → Bool → Nat → List (Ev α)
  | 0, _, _, _, _, _ => []
  | fuel + 1, page, first, second, req, i =>
    if first.length = 0 then []
    else if first.length / 2 < i ∧ req = false then
      if first.length ≤ i then
        Ev.fet (page + 1) (fetch (page + 1)) ::
          ((if (fetch (page + 1)).length = 0 then []
            else [Ev.yld ((fetch (page + 1)).getD 0 default)]) ++
            iterStep fetch fuel (page + 1) (fetch (page + 1)) [] false 1)
      else
        Ev.fet (page + 1) (fetch (page + 1)) :: Ev.yld (first.getD i default) ::
          iterStep fetch fuel (page + 1) first (fetch (page + 1)) true (i + 1)
    else
      if first.length ≤ i then
        (if second.length = 0 then [] else [Ev.yld (second.getD 0 default)]) ++
          iterStep fetch fuel page second [] false 1
      else
        Ev.yld (first.getD i default) ::
          iterStep fetch fuel page first second req (i + 1)

/-- Enough fuel to drive `iterStep` through a list of pages:
one unit per element plus one per page swap. -/
def pagesFuel : List (List α) → Nat
  | [] => 0
  | c :: rest => c.length + 1 + pagesFuel rest

/-- A remote collection holding exactly the pages `ps` (page `k` of the
remote side is `ps[k]`, and every page past the end is empty). -/
def fetchOfPages (ps : List (List α)) (k : Nat) : List α :=
  ps.getD k []

/-- The full event trace of `Dataset.__iter__` over the remote pages `ps`:
the initial un-parameterised fetch of page 0 (`dataset.py`, line 134)
followed by the loop. -/
def iterTrace [Inhabited α] (ps : List (List α)) : List (Ev α) :=
  Ev.fet 0 (fetchOfPages ps 0) ::
    iterStep (fetchOfPages ps) (pagesFuel ps) 0 (fetchOfPages ps 0) [] false 0

/-- The canonical shape of the loop's trace over pages `c :: rest` starting
at page number `k`: the first `len(c)/2 + 1` summaries of `c` are yielded,
then page `k+1` is fetched, then the remaining summaries of `c` are
yielded, and the trace continues with the next page. -/
def canonFrom : List (List α) → Nat → List (Ev α)
  | [], _ => []
  | c :: rest, k =>
      (c.take (c.length / 2 + 1)).map Ev.yld ++
        Ev.fet (k + 1) (rest.headD []) ::
          ((c.drop (c.length / 2 + 1)).map Ev.yld ++ canonFrom rest (k + 1))

/-- The sequence of summaries yielded along a trace. -/
def tracedYields : List (Ev α) → List α
  | [] => []
  | Ev.yld x :: t => x :: tracedYields t
  | Ev.fet _ _ :: t => tracedYields t

/-- `Element.from_dict` applied to one raw summary (`dataset.py`,
line 154).  `Element` itself lives outside `dataset.py`; hydration is
modelled as an injective wrapper around the summary. -/
structure ElementOf (α : Type) where
  summary : α
deriving DecidableEq, Repr

/-- The elements produced by fully consuming `Dataset.__iter__` over the
remote pages `ps`: each yielded summary hydrated in order. -/
def datasetIterElems [Inhabited α] (ps : List (List α)) : List (ElementOf α) :=
  (tracedYields (iterTrace ps)).map ElementOf.mk

lemma iterStep_first_nil [Inhabited α] (fetch : Nat → List α) (fuel pg : Nat)
    (sec : List α) (req : Bool) (i : Nat) :
    iterStep fetch fuel pg [] sec req i = [] := by
  cases fuel <;> simp [iterStep]

lemma drop_cons_getD [Inhabited α] (c : List α) (i : Nat) (h : i < c.length) :
    c.drop i = c.getD i default :: c.drop (i + 1) := by
  rw [List.getD_eq_getElem c default h]
  exact List.drop_eq_getElem_cons h

lemma take_cons_getD [Inhabited α] (c : List α) (k : Nat) (h : c ≠ []) :
    c.take (k + 1) = c.getD 0 default :: (c.drop 1).take k := by
  cases c with
  | nil => exact absurd rfl h
  | cons x t => simp [List.getD]

/-- `pagesFuel` unfolded on a cons. -/
lemma pagesFuel_cons (c : List α) (rest : List (List α)) :
    pagesFuel (c :: rest) = c.length + 1 + pagesFuel rest := rfl

/-- Step equation: prefetch fires, no swap (`len//2 < iteration < len`,
list not yet requested). -/
lemma iterStep_succ_A [Inhabited α] (fetch : Nat → List α) (fuel pg : Nat)
    (c sec : List α) (i : Nat) (h2 : c.length / 2 < i) (h3 : i < c.length) :
    iterStep fetch (fuel + 1) pg c sec false i =
      Ev.fet (pg + 1) (fetch (pg + 1)) :: Ev.yld (c.getD i default) ::
        iterStep fetch fuel (pg + 1) c (fetch (pg + 1)) true (i + 1) := by
  have h0 : ¬ c.length = 0 := by omega
  have h4 : ¬ c.length ≤ i := by omega
  simp [iterStep, h0, h2, h4]

/-- Step equation: prefetch fires and the buffers swap in the same body
iteration. -/
lemma iterStep_succ_B [Inhabited α] (fetch : Nat → List α) (fuel pg : Nat)
    (c sec : List α) (i : Nat) (h1 : ¬ c.length = 0) (h2 : c.length / 2 < i)
    (h3 : c.length ≤ i) :
    iterStep fetch (fuel + 1) pg c sec false i =
      Ev.fet (pg + 1) (fetch (pg + 1)) ::
        ((if (fetch (pg + 1)).length = 0 then []
          else [Ev.yld ((fetch (pg + 1)).getD 0 default)]) ++
          iterStep fetch fuel (pg + 1) (fetch (pg + 1)) [] false 1) := by
  simp [iterStep, h1, h2, h3]

/-- Step equation: no prefetch, plain yield. -/
lemma iterStep_succ_C [Inhabited α] (fetch : Nat → List α) (fuel pg : Nat)
    (c sec : List α) (req : Bool) (i : Nat) (h1 : ¬ c.length = 0)
    (hnp : ¬ (c.length / 2 < i ∧ req = false)) (h3 : i < c.length) :
    iterStep fetch (fuel + 1) pg c sec req i =
      Ev.yld (c.getD i default) :: iterStep fetch fuel pg c sec req (i + 1) := by
  have h4 : ¬ c.length ≤ i := by omega
  simp [iterStep, h1, hnp, h4]

/-- Step equation: no prefetch, buffers swap. -/
lemma iterStep_succ_D [Inhabited α] (fetch : Nat → List α) (fuel pg : Nat)
    (c sec : List α) (req : Bool) (i : Nat) (h1 : ¬ c.length = 0)
    (hnp : ¬ (c.length / 2 < i ∧ req = false)) (h3 : c.length ≤ i) :
    iterStep fetch (fuel + 1) pg c sec req i =
      (if sec.length = 0 then [] else [Ev.yld (sec.getD 0 default)]) ++
        iterStep fetch fuel pg sec [] false 1 := by
  simp [iterStep, h1, hnp, h3]

/-- Central lemma: from any reachable loop state over a current nonempty
buffer `c` (the content of remote page `q`), position `i`, with the pages
after `q` being `rest` followed by an empty page, the loop's remaining
trace has the canonical shape. -/
lemma iter_go [Inhabited α] (fetch : Nat → List α) :
    ∀ fuel q (c : List α) i (req : Bool) (rest : List (List α)) pg (sec : List α),
      c ≠ [] →
      (req = false → i ≤ c.length / 2 + 1) →
      i ≤ c.length →
      pg = (if req then q + 1 else q) →
      sec = (if req then fetch (q + 1) else []) →
      (∀ j, j < rest.length → fetch (q + 1 + j) = rest.getD j []) →
      fetch (q + 1 + rest.length) = [] →
      (∀ r ∈ rest, r ≠ []) →
      c.length - i + 1 + pagesFuel rest ≤ fuel →
      iterStep fetch fuel pg c sec req i =
        (if req then (c.drop i).map Ev.yld ++ canonFrom rest (q + 1)
         else ((c.drop i).take (c.length / 2 + 1 - i)).map Ev.yld ++
           Ev.fet (q + 1) (rest.headD []) ::
             ((c.drop (c.length / 2 + 1)).map Ev.yld ++ canonFrom rest (q + 1))) := by
  intro fuel
  induction fuel with
  | zero =>
    intro q c i req rest pg sec hc hreqi hi hpg hsec hrest hempty hne hfuel
    omega
  | succ fuel ih =>
    intro q c i req rest pg sec hc hreqi hi hpg hsec hrest hempty hne hfuel
    have hclen : 0 < c.length := List.length_pos.mpr hc
    have hc0 : ¬ c.length = 0 := by omega
    have hhead : fetch (q + 1) = rest.headD [] := by
      cases rest with
      | nil => simpa using hempty
      | cons r rest2 => simpa using hrest 0 (by simp)
    cases req with
    | true =>
      rw [if_pos rfl] at hpg hsec
      subst hpg; subst hsec
      rw [if_pos rfl]
      have hnpre : ¬ (c.length / 2 < i ∧ (true : Bool) = false) := by simp
      by_cases hswap : c.length ≤ i
      · -- i = len(c): swap to the already-prefetched buffer
        have hieq : i = c.length := le_antisymm hi hswap
        rw [iterStep_succ_D fetch fuel (q + 1) c (fetch (q + 1)) true i hc0 hnpre hswap]
        cases rest with
        | nil =>
          have hf : fetch (q + 1) = [] := by simpa using hempty
          rw [hf, iterStep_first_nil, hieq, List.drop_length]
          simp [canonFrom]
        | cons r rest2 =>
          have hr : fetch (q + 1) = r := by simpa using hrest 0 (by simp)
          have hrne : r ≠ [] := hne r (by simp)
          have hrlen : 0 < r.length := List.length_pos.mpr hrne
          have hrec := ih (q + 1) r 1 false rest2 (q + 1) []
            hrne (by intro _; omega) (by omega) (by simp) (by simp)
            (by
              intro j hj
              have h8 := hrest (j + 1) (by simp only [List.length_cons]; omega)
              have harith : q + 1 + (j + 1) = q + 1 + 1 + j := by omega
              rw [harith] at h8
              simpa only [List.getD_cons_succ] using h8)
            (by
              have h9 : q + 1 + (r :: rest2).length = q + 1 + 1 + rest2.length := by
                simp only [List.length_cons]; omega
              rw [h9] at hempty; exact hempty)
            (by intro x hx; exact hne x (by simp [hx]))
            (by rw [pagesFuel_cons] at hfuel; omega)
          rw [if_neg (by simp)] at hrec
          have h12 : r.length / 2 + 1 - 1 = r.length / 2 := by omega
          rw [h12] at hrec
          rw [hr, if_neg (by omega : ¬ r.length = 0), hrec, hieq, List.drop_length]
          have htake := take_cons_getD r (r.length / 2) hrne
          simp [canonFrom, htake]
      · -- i < len(c): plain yield
        have hilt : i < c.length := lt_of_not_le hswap
        rw [iterStep_succ_C fetch fuel (q + 1) c (fetch (q + 1)) true i hc0 hnpre hilt]
        have hrec := ih q c (i + 1) true rest (q + 1) (fetch (q + 1))
          hc (by intro h; exact absurd h (by simp)) (by omega) (by simp) (by simp)
          hrest hempty hne (by omega)
        rw [if_pos rfl] at hrec
        rw [hrec, drop_cons_getD c i hilt]
        simp
    | false =>
      rw [if_neg (by simp)] at hpg hsec
      subst hsec
      have hqq : q = pg := hpg.symm
      subst hqq
      rw [if_neg (by simp)]
      have hile : i ≤ c.length / 2 + 1 := hreqi rfl
      by_cases hpre : c.length / 2 < i
      · -- i = len/2 + 1: the prefetch fires in this body iteration
        have hieq : i = c.length / 2 + 1 := by omega
        by_cases hswap : c.length ≤ i
        · -- prefetch and swap in the same iteration (len(c) = 1 or 2)
          have hieq2 : i = c.length := le_antisymm hi hswap
          have hz : c.length / 2 + 1 - i = 0 := by omega
          have hd2 : c.length / 2 + 1 = c.length := by omega
          rw [iterStep_succ_B fetch fuel q c [] i hc0 hpre hswap]
          cases rest with
          | nil =>
            have hf : fetch (q + 1) = [] := by simpa using hempty
            rw [hf, iterStep_first_nil, hz, hd2, List.drop_length]
            simp [canonFrom]
          | cons r rest2 =>
            have hr : fetch (q + 1) = r := by simpa using hrest 0 (by simp)
            have hrne : r ≠ [] := hne r (by simp)
            have hrlen : 0 < r.length := List.length_pos.mpr hrne
            have hrec := ih (q + 1) r 1 false rest2 (q + 1) []
              hrne (by intro _; omega) (by omega) (by simp) (by simp)
              (by
                intro j hj
                have h8 := hrest (j + 1) (by simp only [List.length_cons]; omega)
                have harith : q + 1 + (j + 1) = q + 1 + 1 + j := by omega
                rw [harith] at h8
                simpa only [List.getD_cons_succ] using h8)
              (by
                have h9 : q + 1 + (r :: rest2).length = q + 1 + 1 + rest2.length := by
                  simp only [List.length_cons]; omega
                rw [h9] at hempty; exact hempty)
              (by intro x hx; exact hne x (by simp [hx]))
              (by rw [pagesFuel_cons] at hfuel; omega)
            rw [if_neg (by simp)] at hrec
            have h12 : r.length / 2 + 1 - 1 = r.length / 2 := by omega
            rw [h12] at hrec
            rw [hr, if_neg (by omega : ¬ r.length = 0), hrec, hz, hd2,
              List.drop_length]
            have htake := take_cons_getD r (r.length / 2) hrne
            simp [canonFrom, htake]
        · -- prefetch, then yield from the same buffer
          have hilt : i < c.length := lt_of_not_le hswap
          have hz : c.length / 2 + 1 - i = 0 := by omega
          rw [iterStep_succ_A fetch fuel q c [] i hpre hilt]
          have hrec := ih q c (i + 1) true rest (q + 1) (fetch (q + 1))
            hc (by intro h; exact absurd h (by simp)) (by omega) (by simp) (by simp)
            hrest hempty hne (by omega)
          rw [if_pos rfl] at hrec
          rw [hrec, hz, hhead, show c.length / 2 + 1 = i from hieq.symm,
            drop_cons_getD c i hilt]
          simp
      · -- i ≤ len/2: plain yield, no prefetch yet
        have hilt : i < c.length := by
          have : c.length / 2 < c.length := Nat.div_lt_self hclen (by omega)
          omega
        rw [iterStep_succ_C fetch fuel q c [] false i hc0
          (by intro hand; exact hpre hand.1) hilt]
        have hrec := ih q c (i + 1) false rest q []
          hc (by intro _; omega) (by omega) (by simp) (by simp)
          hrest hempty hne (by omega)
        rw [if_neg (by simp)] at hrec
        rw [hrec]
        have h1 : c.length / 2 + 1 - i = (c.length / 2 + 1 - (i + 1)) + 1 := by omega
        rw [drop_cons_getD c i hilt, h1, List.take_succ_cons]
        simp

/-- The full trace of `Dataset.__iter__` over nonempty pages `ps` is the
canonical trace: the initial fetch of page 0 followed by the canonical
interleaving of yields and prefetches. -/
theorem iterTrace_canonical [Inhabited α] (ps : List (List α))
    (h : ∀ p ∈ ps, p ≠ []) :
    iterTrace ps = Ev.fet 0 (ps.headD []) :: canonFrom ps 0 := by
  cases ps with
  | nil =>
    simp [iterTrace, fetchOfPages, canonFrom, iterStep_first_nil, pagesFuel]
  | cons c rest =>
    have hc : c ≠ [] := h c (by simp)
    have h0 : fetchOfPages (c :: rest) 0 = c := by simp [fetchOfPages]
    unfold iterTrace
    rw [h0]
    have hgo := iter_go (fetchOfPages (c :: rest)) (pagesFuel (c :: rest)) 0 c 0
      false rest 0 []
      hc (by intro _; omega) (by omega) (by simp) (by simp)
      (by
        intro j hj
        have harith : 0 + 1 + j = j + 1 := by omega
        rw [harith]
        simp [fetchOfPages])
      (by
        have harith : 0 + 1 + rest.length = rest.length + 1 := by omega
        rw [harith]
        simp [fetchOfPages])
      (by intro r hr; exact h r (by simp [hr]))
      (by rw [pagesFuel_cons]; omega)
    rw [if_neg (by simp)] at hgo
    rw [hgo]
    simp [canonFrom]

lemma tracedYields_append (a b : List (Ev α)) :
    tracedYields (a ++ b) = tracedYields a ++ tracedYields b := by
  induction a with
  | nil => rfl
  | cons e t iht => cases e <;> simp [tracedYields, iht]

lemma tracedYields_map_yld (l : List α) :
    tracedYields (l.map Ev.yld) = l := by
  induction l with
  | nil => rfl
  | cons x t iht => simp [tracedYields, iht]

lemma tracedYields_canonFrom (ps : List (List α)) (k : Nat) :
    tracedYields (canonFrom ps k) = ps.flatten := by
  induction ps generalizing k with
  | nil => rfl
  | cons c rest ihp =>
    simp only [canonFrom, tracedYields_append, tracedYields_map_yld,
      tracedYields, List.flatten_cons, ihp]
    rw [← List.append_assoc]
    simp [List.take_append_drop]

/-- C1: fully consuming `Dataset.__iter__` over remote elements split
across pages `ps` (each served page nonempty, pages past the end empty)
yields exactly one hydrated `Element` per summary, in the order of the
concatenation of the pages; in particular an empty first page
(`ps = []`) yields the empty sequence.  The iterator never consults
`elements_count`: `iterStep` does not take it as an input, and
termination comes from the swapped-in buffer being empty. -/
theorem iter_yields_exactly_page_concat [Inhabited α] (ps : List (List α))
    (h : ∀ p ∈ ps, p ≠ []) :
    datasetIterElems ps = ps.flatten.map ElementOf.mk := by
  unfold datasetIterElems
  rw [iterTrace_canonical ps h]
  simp [tracedYields, tracedYields_canonFrom]

/-- Witness for C1 at a concrete paged collection. -/
theorem iter_yields_exactly_page_concat_witness :
    (∀ p ∈ [[1, 2], [3]], p ≠ ([] : List Nat)) ∧
      datasetIterElems [[1, 2], [3]] =
        ([[1, 2], [3]] : List (List Nat)).flatten.map ElementOf.mk :=
  ⟨by decide, iter_yields_exactly_page_concat [[1, 2], [3]] (by decide)⟩

/-- Number of fetch events for page `p` in a trace. -/
def fetCount (p : Nat) : List (Ev α) → Nat
  | [] => 0
  | Ev.fet q _ :: t => (if q = p then 1 else 0) + fetCount p t
  | Ev.yld _ :: t => fetCount p t

/-- Number of yields strictly before the first fetch event for page `p`
(the whole trace's yield count when page `p` is never fetched). -/
def yldsBefore (p : Nat) : List (Ev α) → Nat
  | [] => 0
  | Ev.fet q _ :: t => if q = p then 0 else yldsBefore p t
  | Ev.yld _ :: t => 1 + yldsBefore p t

/-- Sum of the lengths of the first `k` pages. -/
def sumLen (ps : List (List α)) (k : Nat) : Nat :=
  ((ps.take k).map List.length).sum

/-- Length of page `k`. -/
def lenAt (ps : List (List α)) (k : Nat) : Nat :=
  (ps.getD k []).length

lemma fetCount_append (p : Nat) (a b : List (Ev α)) :
    fetCount p (a ++ b) = fetCount p a + fetCount p b := by
  induction a with
  | nil => simp [fetCount]
  | cons e t iht => cases e <;> simp [fetCount, iht] <;> omega

lemma fetCount_map_yld (p : Nat) (l : List α) :
    fetCount p (l.map Ev.yld) = 0 := by
  induction l with
  | nil => rfl
  | cons x t iht => simp [fetCount, iht]

lemma yldsBefore_append_yld (p : Nat) (l : List α) (t : List (Ev α)) :
    yldsBefore p (l.map Ev.yld ++ t) = l.length + yldsBefore p t := by
  induction l with
  | nil => simp [yldsBefore]
  | cons x l2 iht => simp [yldsBefore, iht]; omega

lemma fetCount_canonFrom_low (ps : List (List α)) :
    ∀ j p, p ≤ j → fetCount p (canonFrom ps j) = 0 := by
  induction ps with
  | nil => intro j p hp; rfl
  | cons c rest ihp =>
    intro j p hp
    simp only [canonFrom, fetCount_append, fetCount_map_yld, fetCount]
    rw [if_neg (by omega), ihp (j + 1) p (by omega)]

lemma fetCount_canonFrom (ps : List (List α)) :
    ∀ j d, d < ps.length → fetCount (j + d + 1) (canonFrom ps j) = 1 := by
  induction ps with
  | nil => intro j d hd; simp at hd
  | cons c rest ihp =>
    intro j d hd
    simp only [canonFrom, fetCount_append, fetCount_map_yld, fetCount]
    cases d with
    | zero =>
      rw [if_pos (by omega), fetCount_canonFrom_low rest (j + 1) (j + 0 + 1) (by omega)]
    | succ d2 =>
      rw [if_neg (by omega)]
      have := ihp (j + 1) d2 (by simpa using hd)
      have harith : j + 1 + d2 + 1 = j + (d2 + 1) + 1 := by omega
      rw [harith] at this
      rw [this]

lemma yldsBefore_canonFrom (ps : List (List α)) :
    ∀ j k, k < ps.length → (∀ p ∈ ps, p ≠ []) →
      yldsBefore (j + k + 1) (canonFrom ps j) =
        sumLen ps k + lenAt ps k / 2 + 1 := by
  induction ps with
  | nil => intro j k hk _; simp at hk
  | cons c rest ihp =>
    intro j k hk hne
    have hc : c ≠ [] := hne c (by simp)
    have hclen : 0 < c.length := List.length_pos.mpr hc
    have htlen : (c.take (c.length / 2 + 1)).length = c.length / 2 + 1 := by
      rw [List.length_take]
      omega
    cases k with
    | zero =>
      simp only [canonFrom, yldsBefore_append_yld, yldsBefore]
      simp only [if_true]
      rw [htlen]
      simp only [sumLen, lenAt, List.take_zero, List.map_nil, List.sum_nil,
        List.getD_cons_zero]
      omega
    | succ k2 =>
      simp only [canonFrom, yldsBefore_append_yld, yldsBefore]
      rw [if_neg (by omega : ¬ j + 1 = j + (k2 + 1) + 1)]
      have hih := ihp (j + 1) k2 (by simpa using hk)
        (by intro p hp; exact hne p (by simp [hp]))
      have harith : j + 1 + k2 + 1 = j + (k2 + 1) + 1 := by omega
      rw [harith] at hih
      rw [hih, htlen]
      have hdlen : (c.drop (c.length / 2 + 1)).length =
          c.length - (c.length / 2 + 1) := by
        rw [List.length_drop]
      rw [hdlen]
      have hs : sumLen (c :: rest) (k2 + 1) = c.length + sumLen rest k2 := by
        simp [sumLen]
      have hl : lenAt (c :: rest) (k2 + 1) = lenAt rest k2 := by
        simp [lenAt]
      rw [hs, hl]
      omega

/-- C2: during iteration over nonempty pages `ps`, for every page `k`,
the fetch for page `k+1` is issued exactly once; the number of summaries
consumed before that fetch is exactly all of pages `0..k-1` plus
`len(page_k)//2 + 1` summaries of page `k` — so the fetch happens no
earlier than consumption reaching index `len(page_k)//2` of page `k`, no
later than consumption exhausting page `k`, and only after all pages
before `k` have been fully consumed (hence at most the current and the
prefetched buffer are ever live at once). -/
theorem iter_prefetch_window [Inhabited α] (ps : List (List α))
    (h : ∀ p ∈ ps, p ≠ []) (k : Nat) (hk : k < ps.length) :
    fetCount (k + 1) (iterTrace ps) = 1 ∧
    yldsBefore (k + 1) (iterTrace ps) = sumLen ps k + lenAt ps k / 2 + 1 ∧
    sumLen ps k + lenAt ps k / 2 < yldsBefore (k + 1) (iterTrace ps) ∧
    yldsBefore (k + 1) (iterTrace ps) ≤ sumLen ps k + lenAt ps k ∧
    sumLen ps k ≤ yldsBefore (k + 1) (iterTrace ps) := by
  have hct := iterTrace_canonical ps h
  have hfc : fetCount (k + 1) (canonFrom ps 0) = 1 := by
    have := fetCount_canonFrom ps 0 k hk
    simpa using this
  have hyb : yldsBefore (k + 1) (canonFrom ps 0) =
      sumLen ps k + lenAt ps k / 2 + 1 := by
    have := yldsBefore_canonFrom ps 0 k hk h
    simpa using this
  have hlen : 0 < lenAt ps k := by
    have hget : ps.getD k [] = ps.get ⟨k, hk⟩ := by
      rw [List.getD_eq_getElem ps [] hk]
      simp
    have hmem : ps.getD k [] ∈ ps := by
      rw [hget]; exact ps.get_mem k hk
    exact List.length_pos.mpr (h _ hmem)
  have hdiv : lenAt ps k / 2 + 1 ≤ lenAt ps k := by
    have : lenAt ps k / 2 < lenAt ps k := Nat.div_lt_self hlen (by omega)
    omega
  rw [hct]
  simp only [fetCount, yldsBefore, if_neg (by omega : ¬ 0 = k + 1)]
  refine ⟨by rw [hfc], hyb, ?_, ?_, ?_⟩ <;> rw [hyb] <;> omega

/-- Witness for C2 at a concrete paged collection. -/
theorem iter_prefetch_window_witness :
    fetCount 1 (iterTrace [[1, 2, 3], [4, 5]]) = 1 ∧
    yldsBefore 1 (iterTrace [[1, 2, 3], [4, 5]]) =
      sumLen [[1, 2, 3], [4, 5]] 0 + lenAt [[1, 2, 3], [4, 5]] 0 / 2 + 1 ∧
    sumLen [[1, 2, 3], [4, 5]] 0 + lenAt [[1, 2, 3], [4, 5]] 0 / 2 <
      yldsBefore 1 (iterTrace [[1, 2, 3], [4, 5]]) ∧
    yldsBefore 1 (iterTrace [[1, 2, 3], [4, 5]]) ≤
      sumLen [[1, 2, 3], [4, 5]] 0 + lenAt [[1, 2, 3], [4, 5]] 0 ∧
    sumLen [[1, 2, 3], [4, 5]] 0 ≤ yldsBefore 1 (iterTrace [[1, 2, 3], [4, 5]]) :=
  iter_prefetch_window [[1, 2, 3], [4, 5]] (by decide) 0 (by decide)

/-- The local state of a `Dataset` (`dataset.py`, lines 14-34): the
`self.data` dictionary — whose `url_prefix` key may be absent, hence an
`Option` — plus the two cached counters. -/
structure DatasetState where
  urlPfx : Option String
  title : String
  description : String
  reference : String
  tags : List String
  elements_count : Nat
  comments_count : Nat
deriving DecidableEq, Repr

/-- The dataset metadata record returned by the remote side for
`GET datasets/{url_prefix}` (all keys present, as read by `refresh`). -/
structure RemoteDatasetRecord where
  urlPfx : String
  title : String
  description : String
  reference : String
  tags : List String
  elements_count : Nat
  comments_count : Nat
deriving DecidableEq, Repr

/-- `Dataset.__init__` (lines 20-25): `data['url_prefix']` is set to
`url_prefix` when it contains a `/`; otherwise, when a token is given, to
`token.get_prefix() + "/" + url_prefix`; otherwise the key is left unset.
`Token.get_prefix` lives outside `dataset.py`; the token is modelled by
the prefix string it returns. -/
def mkUrlPfxEntry (url_pfx : String) (token : Option String) : Option String :=
  if url_pfx.data.contains '/' then some url_pfx
  else
    match token with
    | some tokenPfx => some (tokenPfx ++ "/" ++ url_pfx)
    | none => none

/-- `Dataset.__init__` (lines 14-34): builds the `data` dictionary and
zeroes both cached counters. -/
def initDataset (url_pfx title description reference : String)
    (tags : List String) (token : Option String) : DatasetState :=
  { urlPfx := mkUrlPfxEntry url_pfx token
  , title := title, description := description, reference := reference
  , tags := tags, elements_count := 0, comments_count := 0 }

/-- `Dataset.get_url_prefix` (lines 39-40): the dictionary access
`self.data['url_prefix']`, raising `KeyError('url_prefix')` when the key
is unset.  Errors carry the `KeyError` key. -/
def getUrlPfx (e : Option String) : Except String String :=
  match e with
  | none => Except.error "url_prefix"
  | some u => Except.ok u

/-- The URL built by `update` (line 67). -/
def updateUrl (e : Option String) : Except String String :=
  (getUrlPfx e).map (fun u => "/datasets/" ++ u)

/-- The URL built by `refresh` (line 242). -/
def refreshUrl (e : Option String) : Except String String :=
  (getUrlPfx e).map (fun u => "datasets/" ++ u)

/-- The elements-listing URL, built by `__iter__` (line 134), `keys`
(line 160), `add_element`'s insertion (line 95), and therefore also by
`save_to_folder`'s pass 1. -/
def elementsUrl (e : Option String) : Except String String :=
  (getUrlPfx e).map (fun u => "datasets/" ++ u ++ "/elements")

/-- The single-element URL, built by `__getitem__` (line 110) and
`__delitem__` (line 122). -/
def elementUrl (e : Option String) (key : String) : Except String String :=
  (getUrlPfx e).map (fun u => "datasets/" ++ u ++ "/elements/" ++ key)

/-- `Dataset.refresh` (lines 241-245): overwrites both cached counters
with the fetched values and replaces the whole `data` dictionary with the
fetched record's values for the keys `url_prefix`, `title`,
`description`, `reference`, `tags`. -/
def refresh (d : DatasetState) (r : RemoteDatasetRecord) : DatasetState :=
  { urlPfx := some r.urlPfx
  , title := r.title, description := r.description, reference := r.reference
  , tags := r.tags
  , elements_count := r.elements_count, comments_count := r.comments_count }

/-- C3 counterexample: a remote record whose `url_prefix` field differs
from the local one.  `refresh` rebuilds `data` including its
`url_prefix` entry from the fetched record (line 245), so the local
identifier is NOT left unchanged regardless of the remote record. -/
theorem refresh_url_pfx_cex :
    (refresh
        { urlPfx := some "tok/ds", title := "t", description := "d"
        , reference := "r", tags := [], elements_count := 3
        , comments_count := 1 }
        { urlPfx := "other/ds", title := "t2", description := "d2"
        , reference := "r2", tags := ["a"], elements_count := 7
        , comments_count := 2 }).urlPfx
      ≠ some "tok/ds" := by
  decide

/-- C3 (amended): `refresh` overwrites `elements_count`,
`comments_count`, `title`, `description`, `reference` and `tags` with the
fetched values; the `url_prefix` entry is likewise overwritten with the
fetched record's `url_prefix`, so it is unchanged precisely when the
remote record carries the same `url_prefix` as the local state. -/
theorem refresh_spec (d : DatasetState) (r : RemoteDatasetRecord) :
    (refresh d r).elements_count = r.elements_count ∧
    (refresh d r).comments_count = r.comments_count ∧
    (refresh d r).title = r.title ∧
    (refresh d r).description = r.description ∧
    (refresh d r).reference = r.reference ∧
    (refresh d r).tags = r.tags ∧
    (refresh d r).urlPfx = some r.urlPfx ∧
    ((refresh d r).urlPfx = d.urlPfx ↔ d.urlPfx = some r.urlPfx) :=
  ⟨rfl, rfl, rfl, rfl, rfl, rfl, rfl, eq_comm⟩

/-- An `Element` hydrated from a raw remote record, with optional,
lazily attached content bytes.  `Element` lives outside `dataset.py`;
modelled from the spec (§3): identifier and metadata come from the
record, `content` is \"only materialized on demand\". -/
structure ElementM (ρ : Type) where
  record : ρ
  content : Option (List Nat)
deriving DecidableEq, Repr

/-- `Dataset.__getitem__` (lines 108-119): inside a `try`, the element
URL is built (which reads `data['url_prefix']`) and fetched; on ANY
exception — missing `url_prefix` key, not-found response or transport
failure — the flag is set and `KeyError(key)` is raised; otherwise the
fetched record is hydrated into an `Element` (`Element.from_dict` is
outside `dataset.py`; hydration is modelled as wrapping the record with
no content attached). -/
def getitemDataset {ρ : Type} (urlp : Option String)
    (remote : String → Except Unit ρ) (key : String) :
    Except String (ElementM ρ) :=
  match elementUrl urlp key with
  | Except.error _ => Except.error key
  | Except.ok url =>
    match remote url with
    | Except.error _ => Except.error key
    | Except.ok rec0 => Except.ok { record := rec0, content := none }

/-- C5: for every key, if the remote fetch fails for any reason the
lookup raises `KeyError(key)` — a not-found condition; if the fetch
succeeds it returns an `Element` hydrated from the returned record; and
no other outcome is possible. -/
theorem getitem_keyerror_spec {ρ : Type} (u : String)
    (remote : String → Except Unit ρ) (key : String) :
    (∀ err, remote ("datasets/" ++ u ++ "/elements/" ++ key) = Except.error err →
      getitemDataset (some u) remote key = Except.error key) ∧
    (∀ rec0, remote ("datasets/" ++ u ++ "/elements/" ++ key) = Except.ok rec0 →
      getitemDataset (some u) remote key =
        Except.ok { record := rec0, content := none }) ∧
    (getitemDataset (some u) remote key = Except.error key ∨
      ∃ rec0, getitemDataset (some u) remote key =
        Except.ok { record := rec0, content := none }) := by
  refine ⟨?_, ?_, ?_⟩
  · intro err hrem
    simp [getitemDataset, elementUrl, getUrlPfx, Except.map, hrem]
  · intro rec0 hrem
    simp [getitemDataset, elementUrl, getUrlPfx, Except.map, hrem]
  · cases hrem : remote ("datasets/" ++ u ++ "/elements/" ++ key) with
    | error err =>
      exact Or.inl (by simp [getitemDataset, elementUrl, getUrlPfx, Except.map, hrem])
    | ok rec0 =>
      exact Or.inr ⟨rec0, by simp [getitemDataset, elementUrl, getUrlPfx, Except.map, hrem]⟩

/-- Witness for C5: one failing and one succeeding remote fetch. -/
theorem getitem_keyerror_spec_witness :
    getitemDataset (some "tok/ds")
        (fun _ => (Except.error () : Except Unit String)) "k1" =
      Except.error "k1" ∧
    getitemDataset (some "tok/ds")
        (fun _ => (Except.ok "rec" : Except Unit String)) "k2" =
      Except.ok { record := "rec", content := none } :=
  ⟨(getitem_keyerror_spec "tok/ds" (fun _ => Except.error ()) "k1").1 () rfl,
   (getitem_keyerror_spec "tok/ds" (fun _ => Except.ok "rec") "k2").2.1 "rec" rfl⟩

/-- C9: constructing a `Dataset` with a `url_prefix` containing no `/`
and no token leaves the `url_prefix` entry of `data` unset — and then
every operation that builds a remote URL (`get_url_prefix`, `update`,
`refresh`, `__iter__`/`keys`/`add_element`/`save_to_folder` via the
elements listing, `__getitem__`/`__delitem__` via the single-element URL)
raises a `KeyError` (`__getitem__` catches it and re-raises
`KeyError(key)`); with a `/` in `url_prefix` or a token supplied, the
entry is always set at construction. -/
theorem init_url_pfx_spec (up t d r : String) (tags : List String)
    (token : Option String) :
    (initDataset up t d r tags token).urlPfx = mkUrlPfxEntry up token ∧
    (¬ up.data.contains '/' = true → token = none → mkUrlPfxEntry up token = none) ∧
    (up.data.contains '/' = true ∨ token ≠ none →
      (mkUrlPfxEntry up token).isSome = true) ∧
    getUrlPfx none = Except.error "url_prefix" ∧
    updateUrl none = Except.error "url_prefix" ∧
    refreshUrl none = Except.error "url_prefix" ∧
    elementsUrl none = Except.error "url_prefix" ∧
    (∀ key, elementUrl none key = Except.error "url_prefix") ∧
    (∀ (remote : String → Except Unit String) key,
      getitemDataset none remote key = Except.error key) := by
  refine ⟨rfl, ?_, ?_, rfl, rfl, rfl, rfl, fun _ => rfl, fun _ _ => rfl⟩
  · intro h1 h2
    subst h2
    have hm : '/' ∉ up.data := by simpa using h1
    simp [mkUrlPfxEntry, hm]
  · intro h
    cases h with
    | inl hs =>
      have hm : '/' ∈ up.data := by simpa using hs
      simp [mkUrlPfxEntry, hm]
    | inr ht =>
      cases htok : token with
      | none => exact absurd htok ht
      | some tp =>
        simp only [mkUrlPfxEntry]
        by_cases hc : '/' ∈ up.data <;> simp [hc]

/-- Witness for C9: a slash-free prefix with no token leaves the entry
unset and URL building fails; a slashed prefix sets it. -/
theorem init_url_pfx_spec_witness :
    (¬ ("myds".data.contains '/') = true) ∧
    mkUrlPfxEntry "myds" none = none ∧
    ("tok/myds".data.contains '/' = true) ∧
    (mkUrlPfxEntry "tok/myds" none).isSome = true ∧
    updateUrl none = Except.error "url_prefix" :=
  ⟨by decide,
   (init_url_pfx_spec "myds" "t" "d" "r" [] none).2.1 (by decide) rfl,
   by decide,
   (init_url_pfx_spec "tok/myds" "t" "d" "r" [] none).2.2.1 (Or.inl (by decide)),
   (init_url_pfx_spec "x" "t" "d" "r" [] none).2.2.2.2.1⟩

/-- The `content` argument of `add_element`: raw bytes, or a path
(`str`).  Bytes are modelled as lists of naturals. -/
inductive ContentArg where
  | bytes (b : List Nat)
  | path (p : String)
deriving DecidableEq, Repr

/-- The content-preparation step of `add_element` (lines 82-93): a `str`
content is a file path — a missing file raises
`Exception("content must be a binary data or a URI to a file.")`;
otherwise the file's bytes are read and, when a binary interpreter is
configured, transformed once by its `cipher`.  The `interpret` argument
plays no role in this step.  Byte content is passed through unchanged.
The local filesystem is a map from paths to file bytes. -/
def prepareContent (fs : String → Option (List Nat))
    (interp : Option (List Nat → List Nat)) :
    ContentArg → Except String (List Nat)
  | ContentArg.bytes b => Except.ok b
  | ContentArg.path p =>
    match fs p with
    | none => Except.error "content must be a binary data or a URI to a file."
    | some contentBytes =>
      match interp with
      | none => Except.ok contentBytes
      | some cipher => Except.ok (cipher contentBytes)

/-- A remote call issued by `add_element`: the metadata-only insertion
(`_post_json`, lines 95-100, whose body carries exactly title,
description, tags, http_ref), the dataset re-fetch performed by
`refresh()` (line 102), the keyed element fetch of `self[result]`
(line 104), and the content attachment `element.set_content(content,
interpret)` (line 105).  `Element.set_content` lives outside
`dataset.py`; modelled from the spec (§4.2): "content bytes are then
attached to that Element separately" — it uploads the bytes it is given,
carrying along the `interpret` flag. -/
inductive ApiCall where
  | postElements (url : String) (title description : String)
      (tags : List String) (http_ref : String)
  | getDataset (url : String)
  | getElement (url : String) (id : String)
  | putContent (id : String) (data : List Nat) (interpret : Bool)
deriving DecidableEq, Repr

/-- `Dataset.add_element` (lines 80-106).  Remote responses are inputs:
`newId` (the insertion response), `dsRecord` (the `refresh` response),
`elemFetch` (the keyed fetch response).  Returns the issued remote calls
in order, the refreshed dataset state, and the returned element; content
preparation failures and `KeyError`s surface as `Except.error`. -/
def addElement {ρ : Type} (d : DatasetState)
    (fs : String → Option (List Nat)) (interp : Option (List Nat → List Nat))
    (title description : String) (tags : List String) (http_ref : String)
    (content : ContentArg) (interpret : Bool) (newId : String)
    (dsRecord : RemoteDatasetRecord) (elemFetch : Except Unit ρ) :
    Except String (List ApiCall × DatasetState × ElementM ρ) :=
  match prepareContent fs interp content with
  | Except.error msg => Except.error msg
  | Except.ok bs =>
    match getUrlPfx d.urlPfx with
    | Except.error k => Except.error k
    | Except.ok u =>
      match elemFetch with
      | Except.error _ => Except.error newId
      | Except.ok rec0 =>
        Except.ok
          ( [ ApiCall.postElements ("datasets/" ++ u ++ "/elements")
                title description tags http_ref
            , ApiCall.getDataset ("datasets/" ++ u)
            , ApiCall.getElement ("datasets/" ++ u ++ "/elements/" ++ newId)
                newId
            , ApiCall.putContent newId bs interpret ]
          , refresh d dsRecord
          , { record := rec0, content := some bs } )

/-- C7: on the success path `add_element` issues, in order: the
metadata-only insertion carrying exactly title/description/tags/http_ref
and returning the new identifier; the dataset `refresh`; the keyed fetch
of the newly created element by that identifier; and the separate content
attachment — returning the fully materialized element. -/
theorem add_element_order_spec {ρ : Type} (d : DatasetState)
    (fs : String → Option (List Nat)) (interp : Option (List Nat → List Nat))
    (title description : String) (tags : List String) (http_ref : String)
    (content : ContentArg) (interpret : Bool) (newId : String)
    (dsRecord : RemoteDatasetRecord) (rec0 : ρ) (u : String) (bs : List Nat)
    (hu : d.urlPfx = some u)
    (hprep : prepareContent fs interp content = Except.ok bs) :
    addElement d fs interp title description tags http_ref content interpret
        newId dsRecord (Except.ok rec0) =
      Except.ok
        ( [ ApiCall.postElements ("datasets/" ++ u ++ "/elements")
              title description tags http_ref
          , ApiCall.getDataset ("datasets/" ++ u)
          , ApiCall.getElement ("datasets/" ++ u ++ "/elements/" ++ newId)
              newId
          , ApiCall.putContent newId bs interpret ]
        , refresh d dsRecord
        , { record := rec0, content := some bs } ) := by
  simp [addElement, hprep, hu, getUrlPfx]

/-- A sample remote dataset record used by concrete witnesses. -/
def sampleDsRecord : RemoteDatasetRecord :=
  { urlPfx := "tok/ds", title := "t", description := "d", reference := "r"
  , tags := [], elements_count := 1, comments_count := 0 }

/-- Witness for C7 at concrete inputs. -/
theorem add_element_order_spec_witness :
    (initDataset "tok/ds" "t" "d" "r" [] none).urlPfx = some "tok/ds" ∧
    prepareContent (fun _ => none) none (ContentArg.bytes [7]) =
      Except.ok [7] ∧
    addElement (initDataset "tok/ds" "t" "d" "r" [] none) (fun _ => none)
        none "et" "ed" ["g"] "eref" (ContentArg.bytes [7]) true "id1"
        sampleDsRecord (Except.ok "erec") =
      Except.ok
        ( [ ApiCall.postElements "datasets/tok/ds/elements" "et" "ed" ["g"]
              "eref"
          , ApiCall.getDataset "datasets/tok/ds"
          , ApiCall.getElement "datasets/tok/ds/elements/id1" "id1"
          , ApiCall.putContent "id1" [7] true ]
        , refresh (initDataset "tok/ds" "t" "d" "r" [] none) sampleDsRecord
        , { record := "erec", content := some [7] } ) :=
  ⟨by decide, rfl,
   by
    have h := add_element_order_spec (initDataset "tok/ds" "t" "d" "r" [] none)
      (fun _ => none) none "et" "ed" ["g"] "eref" (ContentArg.bytes [7]) true
      "id1" sampleDsRecord "erec" "tok/ds" [7] (by decide) rfl
    simpa using h⟩

/-- The `cipher` used in the C4 counterexample: adds one to every byte. -/
def cipherPlusOne (b : List Nat) : List Nat := b.map (fun x => x + 1)

/-- A one-file filesystem used by the C4 theorems. -/
def fsOneFile (p : String) : Option (List Nat) :=
  if p = "f.bin" then some [0, 0] else none

/-- C4 counterexample: with a binary interpreter configured and
`interpret=False`, the raw file bytes `[0, 0]` are still transformed —
the bytes attached by `add_element` are `cipher([0, 0]) = [1, 1]`, not
the raw bytes: the transform does not depend on the `interpret`
argument, refuting "transformed if and only if `interpret=True`". -/
theorem add_element_cipher_cex :
    prepareContent fsOneFile (some cipherPlusOne) (ContentArg.path "f.bin") =
      Except.ok [1, 1] ∧
    fsOneFile "f.bin" = some [0, 0] ∧
    addElement (initDataset "tok/ds" "t" "d" "r" [] none) fsOneFile
        (some cipherPlusOne) "et" "ed" [] "eref" (ContentArg.path "f.bin")
        false "id1" sampleDsRecord (Except.ok "erec") =
      Except.ok
        ( [ ApiCall.postElements "datasets/tok/ds/elements" "et" "ed" []
              "eref"
          , ApiCall.getDataset "datasets/tok/ds"
          , ApiCall.getElement "datasets/tok/ds/elements/id1" "id1"
          , ApiCall.putContent "id1" [1, 1] false ]
        , refresh (initDataset "tok/ds" "t" "d" "r" [] none) sampleDsRecord
        , { record := "erec", content := some [1, 1] } ) ∧
    ([1, 1] : List Nat) ≠ [0, 0] := by
  refine ⟨rfl, rfl, ?_, by decide⟩
  rfl

/-- C4 (amended): for a path to an existing file, when a binary
interpreter is configured the raw file bytes are transformed by `cipher`
exactly once before being attached, regardless of the `interpret`
argument (which is only forwarded to the attachment call); when no
interpreter is configured the raw bytes are uploaded untransformed. -/
theorem add_element_cipher_spec {ρ : Type} (fs : String → Option (List Nat))
    (cipher : List Nat → List Nat) (p : String) (raw : List Nat)
    (d : DatasetState) (u : String) (title description : String)
    (tags : List String) (http_ref : String) (interpret : Bool)
    (newId : String) (dsRecord : RemoteDatasetRecord) (rec0 : ρ)
    (hfs : fs p = some raw) (hu : d.urlPfx = some u) :
    prepareContent fs (some cipher) (ContentArg.path p) =
      Except.ok (cipher raw) ∧
    prepareContent fs none (ContentArg.path p) = Except.ok raw ∧
    addElement d fs (some cipher) title description tags http_ref
        (ContentArg.path p) interpret newId dsRecord (Except.ok rec0) =
      Except.ok
        ( [ ApiCall.postElements ("datasets/" ++ u ++ "/elements")
              title description tags http_ref
          , ApiCall.getDataset ("datasets/" ++ u)
          , ApiCall.getElement ("datasets/" ++ u ++ "/elements/" ++ newId)
              newId
          , ApiCall.putContent newId (cipher raw) interpret ]
        , refresh d dsRecord
        , { record := rec0, content := some (cipher raw) } ) ∧
    addElement d fs none title description tags http_ref
        (ContentArg.path p) interpret newId dsRecord (Except.ok rec0) =
      Except.ok
        ( [ ApiCall.postElements ("datasets/" ++ u ++ "/elements")
              title description tags http_ref
          , ApiCall.getDataset ("datasets/" ++ u)
          , ApiCall.getElement ("datasets/" ++ u ++ "/elements/" ++ newId)
              newId
          , ApiCall.putContent newId raw interpret ]
        , refresh d dsRecord
        , { record := rec0, content := some raw } ) := by
  refine ⟨?_, ?_, ?_, ?_⟩ <;>
    simp [prepareContent, addElement, getUrlPfx, hfs, hu]

/-- Witness for C4's amended statement at concrete inputs. -/
theorem add_element_cipher_spec_witness :
    fsOneFile "f.bin" = some [0, 0] ∧
    (initDataset "tok/ds" "t" "d" "r" [] none).urlPfx = some "tok/ds" ∧
    prepareContent fsOneFile (some cipherPlusOne) (ContentArg.path "f.bin") =
      Except.ok (cipherPlusOne [0, 0]) ∧
    prepareContent fsOneFile none (ContentArg.path "f.bin") =
      Except.ok [0, 0] :=
  ⟨rfl, by decide,
   (add_element_cipher_spec fsOneFile cipherPlusOne "f.bin" [0, 0]
      (initDataset "tok/ds" "t" "d" "r" [] none) "tok/ds" "et" "ed" [] "eref"
      false "id1" sampleDsRecord "erec" rfl (by decide)).1,
   (add_element_cipher_spec fsOneFile cipherPlusOne "f.bin" [0, 0]
      (initDataset "tok/ds" "t" "d" "r" [] none) "tok/ds" "et" "ed" [] "eref"
      false "id1" sampleDsRecord "erec" rfl (by decide)).2.1⟩

/-- `save_to_folder`'s extension normalisation (lines 181-182): one
leading dot is stripped (`elements_extension[1:]` when it
`startswith(".")`).  `startswith(".")` is the head of the string being a
dot. -/
def strStartsDot (e : String) : Bool :=
  match e.data with
  | '.' :: _ => true
  | _ => false

/-- The normalised extension. -/
def normalizeExtension : Option String → Option String
  | none => none
  | some e => some (if strStartsDot e then e.drop 1 else e)

/-- The derived per-element file name and metadata key (lines 190-193):
`element.get_id()` when no extension is configured, else
`"{}.{}".format(id, ext)`. -/
def derivedFilename (id : String) (ext : Option String) : String :=
  match ext with
  | none => id
  | some e => id ++ "." ++ e

/-- The file name derived from the raw `elements_extension` argument. -/
def filenameFor (id : String) (rawExt : Option String) : String :=
  derivedFilename id (normalizeExtension rawExt)

/-- C10 counterexample: for `e = "..a"` (which starts with `"."`), the
derived file name differs from the one obtained by passing `e` without
its leading dot — `".a"` is normalised again, losing a second dot. -/
theorem extension_dot_cex :
    strStartsDot "..a" = true ∧
    filenameFor "x" (some "..a") = "x..a" ∧
    filenameFor "x" (some ".a") = "x.a" ∧
    ("x..a" : String) ≠ "x.a" := by
  refine ⟨rfl, ?_, ?_, by decide⟩ <;> decide

lemma strStartsDot_head (s : String) (h : strStartsDot s = true) :
    ∃ t, s.data = '.' :: t := by
  unfold strStartsDot at h
  split at h
  · next t heq => exact ⟨t, heq⟩
  · simp at h

/-- C10 (amended): an extension starting with `"."` has exactly its one
leading dot stripped; the derived file names and metadata keys coincide
with those from passing the extension without its leading dot precisely
when the remainder does not itself start with a dot — equal when it does
not, different when it does. -/
theorem extension_dot_spec (e id : String) (h : strStartsDot e = true) :
    normalizeExtension (some e) = some (e.drop 1) ∧
    (strStartsDot (e.drop 1) = false →
      filenameFor id (some e) = filenameFor id (some (e.drop 1))) ∧
    (strStartsDot (e.drop 1) = true →
      filenameFor id (some e) ≠ filenameFor id (some (e.drop 1))) := by
  refine ⟨by simp [normalizeExtension, h], ?_, ?_⟩
  · intro h2
    simp [filenameFor, normalizeExtension, h, h2, derivedFilename]
  · intro h2 heq
    obtain ⟨t, ht⟩ := strStartsDot_head (e.drop 1) h2
    have heq2 : id ++ "." ++ e.drop 1 = id ++ "." ++ (e.drop 1).drop 1 := by
      simpa [filenameFor, normalizeExtension, h, h2, derivedFilename] using heq
    have hap : ∀ (a b : String), (a ++ b).data = a.data ++ b.data :=
      fun a b => rfl
    have hlen := congrArg (fun s => s.data.length) heq2
    simp only [hap, List.length_append] at hlen
    have hl1 : (e.drop 1).data.length = t.length + 1 := by
      rw [ht]; rfl
    have hl2 : ((e.drop 1).drop 1).data.length = t.length := by
      rw [String.data_drop, ht]; rfl
    rw [hl1, hl2] at hlen
    omega

/-- Witness for C10's amended statement: `".png"` (remainder not
dot-initial, file names coincide) and `"..b"` (dot-initial remainder,
file names differ). -/
theorem extension_dot_spec_witness :
    strStartsDot ".png" = true ∧
    normalizeExtension (some ".png") = some (".png".drop 1) ∧
    strStartsDot (".png".drop 1) = false ∧
    filenameFor "x" (some ".png") = filenameFor "x" (some (".png".drop 1)) ∧
    strStartsDot "..b" = true ∧
    strStartsDot ("..b".drop 1) = true ∧
    filenameFor "x" (some "..b") ≠ filenameFor "x" (some ("..b".drop 1)) :=
  ⟨by decide, (extension_dot_spec ".png" "x" (by decide)).1, by decide,
   (extension_dot_spec ".png" "x" (by decide)).2.1 (by decide), by decide,
   by decide,
   (extension_dot_spec "..b" "x" (by decide)).2.2 (by decide)⟩

/-- The metadata recorded for one element during `save_to_folder`'s
pass 1 (lines 195-201): id, title, description, http_ref, tags. -/
structure ElemMeta where
  id : String
  title : String
  description : String
  http_ref : String
  tags : List String
deriving DecidableEq, Repr

/-- Python `csv.QUOTE_MINIMAL` with delimiter `,`, quotechar `"` and the
default `\r\n` line terminator: a field is quoted exactly when it
contains the delimiter, the quote char, or a line-terminator char. -/
def needsQuote (s : List Char) : Bool :=
  s.any (fun c => c = ',' || c = '"' || c = '\n' || c = '\r')

/-- Quote-doubling inside a quoted field (python csv's escaping). -/
def escapeQuotes : List Char → List Char
  | [] => []
  | c :: t => if c = '"' then '"' :: '"' :: escapeQuotes t else c :: escapeQuotes t

/-- One serialised CSV field under `QUOTE_MINIMAL`. -/
def encodeField (s : List Char) : List Char :=
  if needsQuote s then '"' :: (escapeQuotes s ++ ['"']) else s

/-- A serialised CSV row without its line terminator: the encoded fields
joined by the `,` delimiter. -/
def encodeRowBody : List (List Char) → List Char
  | [] => []
  | [f] => encodeField f
  | f :: fs => encodeField f ++ ',' :: encodeRowBody fs

/-- A serialised CSV row as written by `csv.writer.writerow`: the body
plus the `\r\n` terminator. -/
def encodeRow (fs : List (List Char)) : List Char :=
  encodeRowBody fs ++ ['\r', '\n']

/-- Parse the body of a quoted CSV field (after its opening quote):
a doubled quote is a literal quote, a single quote closes the field. -/
def parseQuoted (acc : List Char) : List Char → Option (List Char × List Char)
  | [] => none
  | c :: t =>
    if c = '"' then
      match t with
      | [] => some (acc, [])
      | c2 :: t2 =>
        if c2 = '"' then parseQuoted (acc ++ ['"']) t2 else some (acc, c2 :: t2)
    else parseQuoted (acc ++ [c]) t

/-- Parse an unquoted CSV field: everything up to the next delimiter. -/
def parseUnquoted : List Char → List Char × List Char
  | [] => ([], [])
  | c :: t =>
    if c = ',' then ([], c :: t)
    else
      let r := parseUnquoted t
      (c :: r.1, r.2)

/-- Parse one CSV field (quoted or unquoted). -/
def parseField : List Char → Option (List Char × List Char)
  | [] => some ([], [])
  | c :: t => if c = '"' then parseQuoted [] t else some (parseUnquoted (c :: t))

/-- Parse a CSV row body into its fields (fuelled). -/
def parseRowAux : Nat → List Char → Option (List (List Char))
  | 0, _ => none
  | fuel + 1, s =>
    match parseField s with
    | none => none
    | some (f, rest) =>
      match rest with
      | [] => some [f]
      | ',' :: r2 => (parseRowAux fuel r2).map (fun fs => f :: fs)
      | _ => none

/-- Parse a CSV row body into its fields. -/
def parseRow (s : List Char) : Option (List (List Char)) :=
  parseRowAux (s.length + 1) s

/-- `";".join(tags)` (line 239). -/
def tagsJoin (tags : List String) : String :=
  String.intercalate ";" tags

/-- The six cells of one CSV data row (line 239):
`[file_name, id, title, description, http_ref, ";".join(tags)]`. -/
def csvRowFields (k : String) (v : ElemMeta) : List (List Char) :=
  [k.data, v.id.data, v.title.data, v.description.data, v.http_ref.data,
   (tagsJoin v.tags).data]

/-- The header cells written first (line 236). -/
def csvHeader : List (List Char) :=
  ["file_name".data, "id".data, "title".data, "description".data,
   "http_ref".data, "tags".data]

/-- The full text written to `metadata.csv` by `__save_csv`
(lines 233-239): the header row, then one row per metadata entry in
dictionary (insertion) order. -/
def saveCsvContent (md : List (String × ElemMeta)) : List Char :=
  md.foldl (fun acc kv => acc ++ encodeRow (csvRowFields kv.1 kv.2))
    (encodeRow csvHeader)

/-- The data written to a file by `save_to_folder`. -/
inductive FileData where
  | jsonMeta (entries : List (String × ElemMeta))
  | csvText (s : List Char)
  | fileBytes (b : List Nat)
deriving DecidableEq, Repr

/-- One filesystem operation performed by `save_to_folder`. -/
inductive FsOp where
  | mkdir (path : String)
  | write (path : String) (data : FileData)
deriving DecidableEq, Repr

/-- Python dict insertion `metadata[k] = v` (line 195): replaces the
value in place when the key exists, else appends, preserving insertion
order. -/
def dictInsert (m : List (String × ElemMeta)) (k : String) (v : ElemMeta) :
    List (String × ElemMeta) :=
  if m.any (fun kv => kv.1 = k) then
    m.map (fun kv => if kv.1 = k then (k, v) else kv)
  else m ++ [(k, v)]

/-- Pass 1 of `save_to_folder` (lines 188-201): the metadata index built
by one full iteration over the dataset, keyed by the derived file name. -/
def buildMetadata (elems : List ElemMeta) (ext : Option String) :
    List (String × ElemMeta) :=
  elems.foldl (fun m el => dictInsert m (derivedFilename el.id ext) el) []

/-- `Dataset.save_to_folder` (lines 170-227) as the list of filesystem
operations it performs plus its outcome.  In source order: the
best-effort `os.mkdir(folder)` (line 172, exceptions swallowed); the
extension normalisation (lines 181-182); the format check (lines
184-185, raising when the format is neither `csv` nor `json`); pass 1
(lines 188-201, remote iteration, abstracted by the `elems` input — no
filesystem I/O); the metadata file write; `os.mkdir` of the `content`
subfolder (lines 206-210); and one content-file write per index entry in
index order (lines 216-222), the bytes being the keyed re-fetch
`self[id].get_content(interpret=False)`, given by `contentOf`. -/
def saveToFolder (folder : String) (elems : List ElemMeta)
    (contentOf : String → List Nat) (metadata_format : String)
    (elements_extension : Option String) :
    List FsOp × Except String Unit :=
  if metadata_format = "csv" ∨ metadata_format = "json" then
    let md := buildMetadata elems (normalizeExtension elements_extension)
    let metaOp :=
      if metadata_format = "csv" then
        FsOp.write (folder ++ "/metadata.csv")
          (FileData.csvText (saveCsvContent md))
      else
        FsOp.write (folder ++ "/metadata.json") (FileData.jsonMeta md)
    ( FsOp.mkdir folder ::
        metaOp ::
          FsOp.mkdir (folder ++ "/content") ::
            md.map (fun kv =>
              FsOp.write (folder ++ "/content/" ++ kv.1)
                (FileData.fileBytes (contentOf kv.2.id)))
    , Except.ok () )
  else
    ( [FsOp.mkdir folder]
    , Except.error ("format " ++ metadata_format ++ " for metadata not supported.") )

lemma parseQuoted_cons_ne (acc : List Char) (c : Char) (t : List Char)
    (hc : ¬ c = '"') :
    parseQuoted acc (c :: t) = parseQuoted (acc ++ [c]) t := by
  rw [parseQuoted.eq_def]
  simp [hc]

lemma parseQuoted_escape (f : List Char) :
    ∀ acc rest, (rest = [] ∨ ∃ r2, rest = ',' :: r2) →
      parseQuoted acc (escapeQuotes f ++ ('"' :: rest)) = some (acc ++ f, rest) := by
  induction f with
  | nil =>
    intro acc rest hrest
    rcases hrest with rfl | ⟨r2, rfl⟩
    · simp [escapeQuotes, parseQuoted]
    · simp [escapeQuotes, parseQuoted, show ¬ (',' : Char) = '"' by decide]
  | cons c t ih =>
    intro acc rest hrest
    by_cases hc : c = '"'
    · subst hc
      simp only [escapeQuotes, if_pos rfl, List.cons_append]
      simp only [parseQuoted, if_pos rfl]
      simpa using ih (acc ++ ['"']) rest hrest
    · simp only [escapeQuotes, if_neg hc, List.cons_append]
      rw [parseQuoted_cons_ne acc c _ hc]
      simpa using ih (acc ++ [c]) rest hrest

lemma parseUnquoted_eq (f : List Char) :
    ∀ rest, (∀ c ∈ f, ¬ c = ',') → (rest = [] ∨ ∃ r2, rest = ',' :: r2) →
      parseUnquoted (f ++ rest) = (f, rest) := by
  induction f with
  | nil =>
    intro rest hf hrest
    rcases hrest with rfl | ⟨r2, rfl⟩
    · simp [parseUnquoted]
    · simp [parseUnquoted]
  | cons c t ih =>
    intro rest hf hrest
    have hc : ¬ c = ',' := hf c (by simp)
    simp only [List.cons_append, parseUnquoted, if_neg hc]
    simp [ih rest (fun x hx => hf x (by simp [hx])) hrest]

lemma parseField_encode (f : List Char) (rest : List Char)
    (hrest : rest = [] ∨ ∃ r2, rest = ',' :: r2) :
    parseField (encodeField f ++ rest) = some (f, rest) := by
  by_cases hq : needsQuote f = true
  · simp only [encodeField, if_pos hq]
    have hassoc : ('"' :: (escapeQuotes f ++ ['"'])) ++ rest =
        '"' :: (escapeQuotes f ++ ('"' :: rest)) := by simp
    rw [hassoc]
    simp only [parseField, if_pos rfl]
    simpa using parseQuoted_escape f [] rest hrest
  · have hall : ∀ c ∈ f, ¬ (c = ',' ∨ c = '"' ∨ c = '\n' ∨ c = '\r') := by
      intro c hcf hcc
      apply hq
      simp only [needsQuote, List.any_eq_true]
      refine ⟨c, hcf, ?_⟩
      rcases hcc with h | h | h | h <;> simp [h]
    simp only [encodeField, if_neg hq]
    cases f with
    | nil =>
      rcases hrest with rfl | ⟨r2, rfl⟩
      · simp [parseField]
      · simp [parseField, parseUnquoted, show ¬ (',' : Char) = '"' by decide]
    | cons c t =>
      have hcq : ¬ c = '"' := by
        intro hcq
        exact hall c (by simp) (Or.inr (Or.inl hcq))
      simp only [List.cons_append, parseField, if_neg hcq]
      have := parseUnquoted_eq (c :: t) rest
        (by intro x hx hxeq; exact hall x hx (Or.inl hxeq)) hrest
      simp only [List.cons_append] at this
      simp [this]

lemma parseRowAux_encode (fs : List (List Char)) :
    ∀ fuel, fs ≠ [] → fs.length ≤ fuel →
      parseRowAux fuel (encodeRowBody fs) = some fs := by
  induction fs with
  | nil => intro fuel h _; exact absurd rfl h
  | cons f fs2 ih =>
    intro fuel _ hlen
    cases fuel with
    | zero => simp at hlen
    | succ fuel2 =>
      cases fs2 with
      | nil =>
        have hpf := parseField_encode f [] (Or.inl rfl)
        rw [List.append_nil] at hpf
        simp [parseRowAux, encodeRowBody, hpf]
      | cons g fs3 =>
        have hpf := parseField_encode f (',' :: encodeRowBody (g :: fs3))
          (Or.inr ⟨_, rfl⟩)
        have hih := ih fuel2 (by simp) (by simp at hlen ⊢; omega)
        simp only [encodeRowBody]
        simp [parseRowAux, hpf, hih]

lemma encodeRowBody_length (fs : List (List Char)) :
    fs.length ≤ (encodeRowBody fs).length + 1 := by
  induction fs with
  | nil => simp
  | cons f fs2 ih =>
    cases fs2 with
    | nil => simp [encodeRowBody]
    | cons g fs3 =>
      simp only [encodeRowBody] at ih ⊢
      simp only [List.length_append, List.length_cons] at ih ⊢
      omega

/-- Round trip: a CSV row body written under minimal quoting parses back
to exactly its fields. -/
lemma parseRow_encode (fs : List (List Char)) (h : fs ≠ []) :
    parseRow (encodeRowBody fs) = some fs := by
  unfold parseRow
  exact parseRowAux_encode fs _ h (by have := encodeRowBody_length fs; omega)

lemma foldl_append_map {β γ : Type} (g : β → List γ) (l : List β) :
    ∀ init : List γ,
      l.foldl (fun acc x => acc ++ g x) init = init ++ (l.map g).flatten := by
  induction l with
  | nil => intro init; simp
  | cons x t ih => intro init; simp [ih]

/-- C8: the text written to `metadata.csv` is exactly one header row
`file_name,id,title,description,http_ref,tags` followed by one row per
indexed element in index (insertion) order; the `tags` cell is the
element's tags joined by `";"`; and every data row, serialised under
standard minimal quoting (fields containing commas, quotes or newlines
quoted, inner quotes doubled), parses back to exactly its six cells —
column boundaries are preserved. -/
theorem save_csv_spec (md : List (String × ElemMeta)) :
    saveCsvContent md =
      encodeRow csvHeader ++
        (md.map (fun kv => encodeRow (csvRowFields kv.1 kv.2))).flatten ∧
    encodeRow csvHeader =
      "file_name,id,title,description,http_ref,tags".data ++ ['\r', '\n'] ∧
    (∀ kv ∈ md, csvRowFields kv.1 kv.2 =
      [kv.1.data, kv.2.id.data, kv.2.title.data, kv.2.description.data,
       kv.2.http_ref.data, (tagsJoin kv.2.tags).data]) ∧
    (∀ kv ∈ md, parseRow (encodeRowBody (csvRowFields kv.1 kv.2)) =
      some (csvRowFields kv.1 kv.2)) := by
  refine ⟨foldl_append_map _ md _, by decide, fun kv _ => rfl, fun kv _ => ?_⟩
  exact parseRow_encode _ (by simp [csvRowFields])

/-- A metadata entry whose title contains a comma and quotes, used by the
C8 witness. -/
def trickyMeta : ElemMeta :=
  { id := "a", title := "Hello, \"W\"", description := "d", http_ref := "h"
  , tags := ["x", "y"] }

/-- Witness for C8 on a one-entry index with a comma and quotes in the
title. -/
theorem save_csv_spec_witness :
    ("f.png", trickyMeta) ∈ [("f.png", trickyMeta)] ∧
    parseRow (encodeRowBody (csvRowFields "f.png" trickyMeta)) =
      some (csvRowFields "f.png" trickyMeta) ∧
    saveCsvContent [("f.png", trickyMeta)] =
      encodeRow csvHeader ++
        ([("f.png", trickyMeta)].map
          (fun kv => encodeRow (csvRowFields kv.1 kv.2))).flatten :=
  ⟨by decide,
   (save_csv_spec [("f.png", trickyMeta)]).2.2.2 ("f.png", trickyMeta) (by decide),
   (save_csv_spec [("f.png", trickyMeta)]).1⟩

/-- C6 counterexample: `save_to_folder` with the unsupported format
`xml` does raise before writing anything, but only AFTER
`os.mkdir(folder)` (line 172) — a directory-creation operation precedes
the failed format check, refuting "no directory is created". -/
theorem save_unsupported_cex :
    (saveToFolder "dst" [] (fun _ => []) "xml" none).1 = [FsOp.mkdir "dst"] ∧
    (saveToFolder "dst" [] (fun _ => []) "xml" none).1 ≠ [] ∧
    (saveToFolder "dst" [] (fun _ => []) "xml" none).2 =
      Except.error "format xml for metadata not supported." := by
  refine ⟨rfl, by decide, rfl⟩

/-- C6 (amended): for every metadata format other than `json` and `csv`,
`save_to_folder` raises before any metadata or content I/O — no metadata
file is written, no `content` folder is created, no content file is
written; the only filesystem operation is the best-effort creation of
the destination folder itself, which the code performs before the
check. -/
theorem save_unsupported_spec (folder : String) (elems : List ElemMeta)
    (contentOf : String → List Nat) (ext : Option String) (fmt : String)
    (h1 : fmt ≠ "json") (h2 : fmt ≠ "csv") :
    saveToFolder folder elems contentOf fmt ext =
      ( [FsOp.mkdir folder]
      , Except.error ("format " ++ fmt ++ " for metadata not supported.") ) := by
  simp [saveToFolder, h1, h2]

/-- Witness for C6's amended statement at format `xml`. -/
theorem save_unsupported_spec_witness :
    ("xml" : String) ≠ "json" ∧ ("xml" : String) ≠ "csv" ∧
    saveToFolder "dst" [] (fun _ => []) "xml" none =
      ( [FsOp.mkdir "dst"]
      , Except.error ("format " ++ "xml" ++ " for metadata not supported.") ) :=
  ⟨by decide, by decide,
   save_unsupported_spec "dst" [] (fun _ => []) none "xml" (by decide) (by decide)⟩

end Mldata
